import Mathlib

/-!
Verification of the DeHire marketplace contract.

The repository ships brownie test suites (src/tests) and data-class mirrors of
the on-chain structures (src/tests/data_types.py); the Solidity core contract
itself is not present under src/.  The enums and record layouts below are
taken from src/tests/data_types.py; the contract operations are modelled from
the specification (sections 4.1 to 4.5), with every such definition marked
`Modelled from the spec:` in its doc comment.

The definitions come first: the data model, the operations, the transition
system `step` over external calls and its reachable states, and a concrete
execution mirroring the fixture pipeline of src/tests/conftest.py
(create, apply, assign, ask-to-review, review, complete).  The theorems
follow: the escrow-lifecycle invariant, and one theorem per specification
claim with a concrete witness instance for each.
-/

namespace DeHire


/-- Job status enum, mirroring JobStatus in src/tests/data_types.py
(Open = 0, InProgress = 1, WaitingReview = 2, Completed = 3, Cancelled = 4). -/
inductive JobStatus where
  | Open
  | InProgress
  | WaitingReview
  | Completed
  | Cancelled
deriving DecidableEq, Repr

/-- Role enum, mirroring Role in src/tests/data_types.py
(Employer = 0, Employee = 1). -/
inductive Role where
  | Employer
  | Employee
deriving DecidableEq, Repr

/-- Rating filter enum, mirroring RatingType in src/tests/data_types.py
(Positive = 0, Negative = 1, Both = 2). -/
inductive RatingType where
  | Positive
  | Negative
  | Both
deriving DecidableEq, Repr

/-- Addresses are opaque identifiers; 0 plays the role of the empty address
(the empty string in the data-class mirror). -/
abbrev Address := Nat

/-- Job record, mirroring Job in src/tests/data_types.py. -/
structure Job where
  employer : Address
  employee : Address
  payment : Nat
  status : JobStatus
  description : String
  deadline : Nat
  workResult : String
  createdAt : Nat
  updatedAt : Nat
deriving DecidableEq, Repr

/-- Rating record, mirroring Rating in src/tests/data_types.py; the rated
person's address is the key of the ratings mapping, not a stored field. -/
structure Rating where
  jobId : Nat
  score : Nat
  comment : String
  role : Role
  createdAt : Nat
deriving DecidableEq, Repr

/-- Review record, mirroring Review in src/tests/data_types.py; the job id is
the key of the reviews mapping, not a stored field. -/
structure Review where
  score : Nat
  comment : String
  createdAt : Nat
deriving DecidableEq, Repr

/-- Error taxonomy of section 7 of the specification: every guard violation
aborts the whole operation with one of these kinds and no state change. -/
inductive ContractError where
  | Unauthorized
  | InvalidState
  | NotFound
  | InvalidArgument
deriving DecidableEq, Repr

/-- Modelled from the spec: the whole persistent state of the missing
DeHireContract — the append-only job table indexed by sequential id
(JobLifecycle), the per-job application lists (ApplicationRegistry), the
per-job escrowed amount and single-release flag (EscrowAccount), the ratings
keyed by rated address (RatingLedger), the reviews keyed by job id
(ReviewLedger), and the external account balances the escrow pays from and
into. -/
structure ContractState where
  jobs : List Job
  applications : Nat → List Address
  escrowAmount : Nat → Nat
  escrowReleased : Nat → Bool
  ratings : Address → List Rating
  reviews : Nat → List Review
  balances : Address → Int

/-- Modelled from the spec: the state right after deployment — no jobs, no
applications, no escrow, no ratings, no reviews; external balances are a
parameter of the environment. -/
def initState (bal : Address → Int) : ContractState :=
  { jobs := []
    applications := fun _ => []
    escrowAmount := fun _ => 0
    escrowReleased := fun _ => false
    ratings := fun _ => []
    reviews := fun _ => []
    balances := bal }

/-- Modelled from the spec (4.1 createJob): requires attached payment > 0,
creates a Job record in Open with the caller as employer and an empty
work result, escrows the attached amount against the new sequential job id,
debits the caller's balance by exactly that amount, and returns the new id. -/
def createJob (s : ContractState) (caller : Address) (value : Nat)
    (deadline : Nat) (description : String) (now : Nat) :
    Except ContractError (ContractState × Nat) :=
  if value = 0 then .error .InvalidArgument
  else
    let jobId := s.jobs.length
    let job : Job :=
      { employer := caller
        employee := 0
        payment := value
        status := .Open
        description := description
        deadline := deadline
        workResult := ""
        createdAt := now
        updatedAt := now }
    .ok ({ s with
            jobs := s.jobs ++ [job]
            escrowAmount := fun i => if i = jobId then value else s.escrowAmount i
            balances := fun a =>
              if a = caller then s.balances a - (value : Int) else s.balances a },
         jobId)

/-- Modelled from the spec (4.1 applyForJob): requires the job to exist, the
caller to differ from the employer, and status Open; appends the caller to the
application list if not already present (the silently idempotent duplicate
policy the spec leaves to the implementer).  Does not change the job record. -/
def applyForJob (s : ContractState) (caller : Address) (jobId : Nat) :
    Except ContractError ContractState :=
  match s.jobs[jobId]? with
  | none => .error .NotFound
  | some j =>
    if caller = j.employer then .error .Unauthorized
    else if j.status ≠ .Open then .error .InvalidState
    else if caller ∈ s.applications jobId then .ok s
    else .ok { s with
                applications := fun i =>
                  if i = jobId then s.applications jobId ++ [caller]
                  else s.applications i }

/-- Modelled from the spec (4.1 assignJob): only the job's employer, only in
Open, only for an address present in the application list; sets the employee
field and transitions to InProgress. -/
def assignJob (s : ContractState) (caller : Address) (jobId : Nat)
    (employeeAddress : Address) (now : Nat) :
    Except ContractError ContractState :=
  match s.jobs[jobId]? with
  | none => .error .NotFound
  | some j =>
    if caller ≠ j.employer then .error .Unauthorized
    else if j.status ≠ .Open then .error .InvalidState
    else if employeeAddress ∉ s.applications jobId then .error .NotFound
    else .ok { s with
                jobs := s.jobs.set jobId
                  { j with employee := employeeAddress, status := .InProgress,
                           updatedAt := now } }

/-- Modelled from the spec (4.1 askToReviewJob): only the job's employee, only
in InProgress; stores the work-result reference and transitions to
WaitingReview. -/
def askToReviewJob (s : ContractState) (caller : Address) (jobId : Nat)
    (workResult : String) (now : Nat) :
    Except ContractError ContractState :=
  match s.jobs[jobId]? with
  | none => .error .NotFound
  | some j =>
    if caller ≠ j.employee then .error .Unauthorized
    else if j.status ≠ .InProgress then .error .InvalidState
    else .ok { s with
                jobs := s.jobs.set jobId
                  { j with workResult := workResult, status := .WaitingReview,
                           updatedAt := now } }

/-- Modelled from the spec (4.2 release): called by JobLifecycle at
completion only; transfers exactly the escrowed amount for the job id to the
recipient and is callable once per job id (single-release guard). -/
def escrowRelease (s : ContractState) (jobId : Nat) (recipient : Address) :
    Except ContractError ContractState :=
  if s.escrowReleased jobId then .error .InvalidState
  else .ok { s with
              escrowReleased := fun i => if i = jobId then true else s.escrowReleased i
              balances := fun a =>
                if a = recipient then s.balances a + (s.escrowAmount jobId : Int)
                else s.balances a }

/-- Modelled from the spec (4.1 completeJob): only the job's employer, only in
WaitingReview; records the transition to Completed first and only then
instructs the escrow to pay the job's payment to the employee
(transition-then-transfer ordering). -/
def completeJob (s : ContractState) (caller : Address) (jobId : Nat)
    (now : Nat) : Except ContractError ContractState :=
  match s.jobs[jobId]? with
  | none => .error .NotFound
  | some j =>
    if caller ≠ j.employer then .error .Unauthorized
    else if j.status ≠ .WaitingReview then .error .InvalidState
    else
      let s1 : ContractState :=
        { s with jobs := s.jobs.set jobId
                  { j with status := .Completed, updatedAt := now } }
      escrowRelease s1 jobId j.employee

/-- Modelled from the spec (4.1 getJob): read-only, requires only existence. -/
def getJob (s : ContractState) (jobId : Nat) : Except ContractError Job :=
  match s.jobs[jobId]? with
  | none => .error .NotFound
  | some j => .ok j

/-- Modelled from the spec (4.1 getJobApplications): read-only, requires only
existence. -/
def getJobApplications (s : ContractState) (jobId : Nat) :
    Except ContractError (List Address) :=
  match s.jobs[jobId]? with
  | none => .error .NotFound
  | some _ => .ok (s.applications jobId)

/-- Derived rating polarity of the data model: score ≥ 3 is positive,
score < 3 is negative. -/
def isPositive (r : Rating) : Bool := 3 ≤ r.score

/-- Whether a rating passes a polarity filter. -/
def matchesFilter (filter : RatingType) (r : Rating) : Bool :=
  match filter with
  | .Positive => isPositive r
  | .Negative => !isPositive r
  | .Both => true

/-- Modelled from the spec (4.4 createRating): requires score in [1, 5], an
existing job in Completed, and exactly one of the two valid pairings of
(caller, rated person, role); appends an immutable Rating under the rated
person's address. -/
def createRating (s : ContractState) (caller : Address) (jobId : Nat)
    (score : Nat) (comment : String) (role : Role)
    (ratedPersonAddress : Address) (now : Nat) :
    Except ContractError ContractState :=
  if score < 1 ∨ 5 < score then .error .InvalidArgument
  else match s.jobs[jobId]? with
  | none => .error .NotFound
  | some j =>
    if j.status ≠ .Completed then .error .InvalidState
    else if (caller = j.employer ∧ ratedPersonAddress = j.employee ∧ role = .Employee)
            ∨ (caller = j.employee ∧ ratedPersonAddress = j.employer ∧ role = .Employer)
    then .ok { s with
                ratings := fun a =>
                  if a = ratedPersonAddress then
                    s.ratings ratedPersonAddress
                      ++ [{ jobId := jobId, score := score, comment := comment,
                            role := role, createdAt := now }]
                  else s.ratings a }
    else .error .Unauthorized

/-- Modelled from the spec (4.4 getRatings): all ratings stored under the
address, filtered by derived polarity; Both keeps everything in insertion
order. -/
def getRatings (s : ContractState) (addr : Address) (filter : RatingType) :
    List Rating :=
  (s.ratings addr).filter (matchesFilter filter)

/-- Modelled from the spec (4.4 getRatingsCount): cardinality of getRatings. -/
def getRatingsCount (s : ContractState) (addr : Address)
    (filter : RatingType) : Nat :=
  (getRatings s addr filter).length

/-- Modelled from the spec (4.4 getKarma): a running signed tally over the
address's ratings, +1 per positive and -1 per negative. -/
def getKarma (s : ContractState) (addr : Address) : Int :=
  (s.ratings addr).foldl
    (fun k r => if isPositive r then k + 1 else k - 1) 0

/-- Modelled from the spec (4.5 createReview): only the job's employer, only
while the job is in WaitingReview; appends an immutable Review under the
job id. -/
def createReview (s : ContractState) (caller : Address) (jobId : Nat)
    (score : Nat) (comment : String) (now : Nat) :
    Except ContractError ContractState :=
  match s.jobs[jobId]? with
  | none => .error .NotFound
  | some j =>
    if caller ≠ j.employer then .error .Unauthorized
    else if j.status ≠ .WaitingReview then .error .InvalidState
    else .ok { s with
                reviews := fun i =>
                  if i = jobId then
                    s.reviews jobId
                      ++ [{ score := score, comment := comment, createdAt := now }]
                  else s.reviews i }

/-- Modelled from the spec (4.5 getReviews): only the job's employee may read;
the employer and third parties are Unauthorized; the gate does not depend on
the job's status. -/
def getReviews (s : ContractState) (caller : Address) (jobId : Nat) :
    Except ContractError (List Review) :=
  match s.jobs[jobId]? with
  | none => .error .NotFound
  | some j =>
    if caller ≠ j.employee then .error .Unauthorized
    else .ok (s.reviews jobId)

/-- One external call to the contract, with its caller and arguments. -/
inductive Op where
  | createJob (caller : Address) (value deadline : Nat) (description : String)
      (now : Nat)
  | applyForJob (caller : Address) (jobId : Nat)
  | assignJob (caller : Address) (jobId : Nat) (employeeAddress : Address)
      (now : Nat)
  | askToReviewJob (caller : Address) (jobId : Nat) (workResult : String)
      (now : Nat)
  | completeJob (caller : Address) (jobId : Nat) (now : Nat)
  | createRating (caller : Address) (jobId score : Nat) (comment : String)
      (role : Role) (ratedPersonAddress : Address) (now : Nat)
  | createReview (caller : Address) (jobId score : Nat) (comment : String)
      (now : Nat)

/-- Transactional execution of one call: a rejected operation leaves the
state exactly as it was (all-or-nothing semantics of section 7). -/
def step (s : ContractState) (op : Op) : ContractState :=
  match op with
  | .createJob caller value deadline description now =>
    match createJob s caller value deadline description now with
    | .ok (s', _) => s'
    | .error _ => s
  | .applyForJob caller jobId =>
    match applyForJob s caller jobId with
    | .ok s' => s'
    | .error _ => s
  | .assignJob caller jobId employeeAddress now =>
    match assignJob s caller jobId employeeAddress now with
    | .ok s' => s'
    | .error _ => s
  | .askToReviewJob caller jobId workResult now =>
    match askToReviewJob s caller jobId workResult now with
    | .ok s' => s'
    | .error _ => s
  | .completeJob caller jobId now =>
    match completeJob s caller jobId now with
    | .ok s' => s'
    | .error _ => s
  | .createRating caller jobId score comment role ratedPersonAddress now =>
    match createRating s caller jobId score comment role ratedPersonAddress now with
    | .ok s' => s'
    | .error _ => s
  | .createReview caller jobId score comment now =>
    match createReview s caller jobId score comment now with
    | .ok s' => s'
    | .error _ => s

/-- States reachable from deployment by any sequence of external calls. -/
inductive Reachable : ContractState → Prop where
  | init (bal : Address → Int) : Reachable (initState bal)
  | step (s : ContractState) (op : Op) : Reachable s → Reachable (step s op)

/-- The immediate successor along the one legal lifecycle path
Open → InProgress → WaitingReview → Completed. -/
def statusNext : JobStatus → Option JobStatus
  | .Open => some .InProgress
  | .InProgress => some .WaitingReview
  | .WaitingReview => some .Completed
  | .Completed => none
  | .Cancelled => none

/-- One observation step either keeps a job's status or advances it to the
immediate successor on the legal path; in particular it never regresses. -/
def statusAdvances (a b : JobStatus) : Prop :=
  b = a ∨ statusNext a = some b

instance (a b : JobStatus) : Decidable (statusAdvances a b) := by
  unfold statusAdvances; infer_instance

/-- The escrow-lifecycle invariant: a job's escrow has been released exactly
when its status is Completed, the escrowed amount is exactly the job's
payment, no job is ever Cancelled, and ids beyond the job table have no
released escrow. -/
def GoodState (s : ContractState) : Prop :=
  (∀ i (h : i < s.jobs.length),
      (s.escrowReleased i = true ↔ s.jobs[i].status = .Completed)
      ∧ s.escrowAmount i = s.jobs[i].payment
      ∧ s.jobs[i].status ≠ .Cancelled)
  ∧ (∀ i, s.jobs.length ≤ i → s.escrowReleased i = false)

/-- Uniform starting balances for the external accounts of the scenario. -/
def initialBalances : Address → Int := fun _ => 1000

/-- The deployed, empty contract (fixture `contract`). -/
def sDeployed : ContractState := initState initialBalances

/-- After employer 1 creates job 0 with payment 100 (fixture created_job_id). -/
def sCreated : ContractState := step sDeployed (.createJob 1 100 5 "Test job" 0)

/-- After employee 2 applies for job 0 (fixture applied_job_id). -/
def sApplied : ContractState := step sCreated (.applyForJob 2 0)

/-- After the employer assigns employee 2 (fixture assigned_job_id). -/
def sAssigned : ContractState := step sApplied (.assignJob 1 0 2 1)

/-- After the employee submits work for review (fixture waiting_review_job_id). -/
def sWaiting : ContractState := step sAssigned (.askToReviewJob 2 0 "test_url" 2)

/-- After the employer writes a review while the job waits (fixture created_review_id). -/
def sReviewed : ContractState := step sWaiting (.createReview 1 0 5 "test_comment" 3)

/-- After the employer completes job 0 (fixture completed_job_id). -/
def sCompleted : ContractState := step sReviewed (.completeJob 1 0 4)

/-- Job 0 as stored right after creation. -/
def jobOpen : Job :=
  { employer := 1, employee := 0, payment := 100, status := .Open,
    description := "Test job", deadline := 5, workResult := "",
    createdAt := 0, updatedAt := 0 }

/-- Job 0 as stored while waiting for review. -/
def jobWaiting : Job :=
  { employer := 1, employee := 2, payment := 100, status := .WaitingReview,
    description := "Test job", deadline := 5, workResult := "test_url",
    createdAt := 0, updatedAt := 2 }

/-- Job 0 as stored after completion. -/
def jobCompleted : Job :=
  { employer := 1, employee := 2, payment := 100, status := .Completed,
    description := "Test job", deadline := 5, workResult := "test_url",
    createdAt := 0, updatedAt := 4 }

lemma karma_foldl (l : List Rating) (k : Int) :
    l.foldl (fun k r => if isPositive r then k + 1 else k - 1) k
      = k + (l.countP (fun r => decide (3 ≤ r.score)) : Int)
          - (l.countP (fun r => decide (r.score < 3)) : Int) := by
  induction l generalizing k with
  | nil => simp
  | cons r l ih =>
    simp only [List.foldl_cons, List.countP_cons, ih]
    by_cases h : 3 ≤ r.score
    · simp [isPositive, h, Nat.not_lt.2 h]
      ring
    · simp [isPositive, h, Nat.lt_of_not_le h, Nat.not_le.1 h]
      ring

lemma applyForJob_ok (s s' : ContractState) (caller : Address) (jobId : Nat)
    (h : applyForJob s caller jobId = .ok s') :
    s'.jobs = s.jobs ∧ s'.escrowReleased = s.escrowReleased
      ∧ s'.escrowAmount = s.escrowAmount ∧ s'.balances = s.balances := by
  unfold applyForJob at h
  split at h
  · exact absurd h (by simp)
  · split at h
    · exact absurd h (by simp)
    · split at h
      · exact absurd h (by simp)
      · split at h
        · cases h; exact ⟨rfl, rfl, rfl, rfl⟩
        · cases h; exact ⟨rfl, rfl, rfl, rfl⟩

lemma createJob_ok (s s' : ContractState) (caller : Address)
    (value deadline now jobId : Nat) (description : String)
    (h : createJob s caller value deadline description now = .ok (s', jobId)) :
    jobId = s.jobs.length ∧ 0 < value
      ∧ s'.jobs = s.jobs ++
          [{ employer := caller, employee := 0, payment := value,
             status := .Open, description := description, deadline := deadline,
             workResult := "", createdAt := now, updatedAt := now }]
      ∧ s'.escrowReleased = s.escrowReleased
      ∧ (∀ i, s'.escrowAmount i
          = if i = s.jobs.length then value else s.escrowAmount i) := by
  unfold createJob at h
  split at h
  · exact absurd h (by simp)
  · cases h
    refine ⟨rfl, by omega, rfl, rfl, fun i => rfl⟩

lemma assignJob_ok (s s' : ContractState) (caller : Address)
    (jobId : Nat) (e : Address) (now : Nat)
    (h : assignJob s caller jobId e now = .ok s') :
    ∃ j, s.jobs[jobId]? = some j ∧ j.status = .Open
      ∧ s'.jobs = s.jobs.set jobId
          { j with employee := e, status := .InProgress, updatedAt := now }
      ∧ s'.escrowReleased = s.escrowReleased
      ∧ s'.escrowAmount = s.escrowAmount ∧ s'.balances = s.balances := by
  unfold assignJob at h
  split at h
  · exact absurd h (by simp)
  · rename_i j heq
    split at h
    · exact absurd h (by simp)
    · split at h
      · exact absurd h (by simp)
      · split at h
        · exact absurd h (by simp)
        · cases h
          rename_i hst _
          exact ⟨j, heq, by simpa using hst, rfl, rfl, rfl, rfl⟩

lemma askToReviewJob_ok (s s' : ContractState) (caller : Address)
    (jobId : Nat) (workResult : String) (now : Nat)
    (h : askToReviewJob s caller jobId workResult now = .ok s') :
    ∃ j, s.jobs[jobId]? = some j ∧ j.status = .InProgress
      ∧ s'.jobs = s.jobs.set jobId
          { j with workResult := workResult, status := .WaitingReview,
                   updatedAt := now }
      ∧ s'.escrowReleased = s.escrowReleased
      ∧ s'.escrowAmount = s.escrowAmount ∧ s'.balances = s.balances := by
  unfold askToReviewJob at h
  split at h
  · exact absurd h (by simp)
  · rename_i j heq
    split at h
    · exact absurd h (by simp)
    · split at h
      · exact absurd h (by simp)
      · cases h
        rename_i hst
        exact ⟨j, heq, by simpa using hst, rfl, rfl, rfl, rfl⟩

lemma completeJob_ok (s s' : ContractState) (caller : Address)
    (jobId now : Nat) (h : completeJob s caller jobId now = .ok s') :
    ∃ j, s.jobs[jobId]? = some j ∧ j.status = .WaitingReview
      ∧ caller = j.employer ∧ s.escrowReleased jobId = false
      ∧ s'.jobs = s.jobs.set jobId
          { j with status := .Completed, updatedAt := now }
      ∧ (∀ i, s'.escrowReleased i = if i = jobId then true else s.escrowReleased i)
      ∧ s'.escrowAmount = s.escrowAmount
      ∧ (∀ a, s'.balances a
          = if a = j.employee then s.balances a + (s.escrowAmount jobId : Int)
            else s.balances a) := by
  unfold completeJob at h
  split at h
  · exact absurd h (by simp)
  · rename_i j heq
    split at h
    · exact absurd h (by simp)
    · split at h
      · exact absurd h (by simp)
      · unfold escrowRelease at h
        dsimp only at h
        split at h
        · exact absurd h (by simp)
        · cases h
          rename_i hc hst hrel
          exact ⟨j, heq, by simpa using hst, by simpa using hc,
            by simpa using hrel, rfl, fun i => rfl, rfl, fun a => rfl⟩

lemma createRating_ok (s s' : ContractState) (caller : Address)
    (jobId score : Nat) (comment : String) (role : Role) (rated : Address)
    (now : Nat)
    (h : createRating s caller jobId score comment role rated now = .ok s') :
    s'.jobs = s.jobs ∧ s'.escrowReleased = s.escrowReleased
      ∧ s'.escrowAmount = s.escrowAmount ∧ s'.balances = s.balances := by
  unfold createRating at h
  split at h
  · exact absurd h (by simp)
  · split at h
    · exact absurd h (by simp)
    · split at h
      · exact absurd h (by simp)
      · split at h
        · cases h; exact ⟨rfl, rfl, rfl, rfl⟩
        · exact absurd h (by simp)

lemma createReview_ok (s s' : ContractState) (caller : Address)
    (jobId score : Nat) (comment : String) (now : Nat)
    (h : createReview s caller jobId score comment now = .ok s') :
    s'.jobs = s.jobs ∧ s'.escrowReleased = s.escrowReleased
      ∧ s'.escrowAmount = s.escrowAmount ∧ s'.balances = s.balances := by
  unfold createReview at h
  split at h
  · exact absurd h (by simp)
  · split at h
    · exact absurd h (by simp)
    · split at h
      · exact absurd h (by simp)
      · cases h; exact ⟨rfl, rfl, rfl, rfl⟩

lemma good_step (s : ContractState) (op : Op) (hg : GoodState s) :
    GoodState (step s op) := by
  obtain ⟨hg1, hg2⟩ := hg
  cases op with
  | createJob caller value deadline description now =>
    simp only [step]
    split
    · rename_i s' jobId heq
      obtain ⟨hid, hv, hjobs, hrel, hamt⟩ :=
        createJob_ok s s' caller value deadline now jobId description heq
      constructor
      · intro i hi
        have hi' : i < s.jobs.length + 1 := by
          simpa [hjobs] using hi
        by_cases hlt : i < s.jobs.length
        · have hidx : s'.jobs[i] = s.jobs[i] := by
            simp only [hjobs]
            exact List.getElem_append_left hlt
          rw [hidx, hrel, hamt, if_neg (by omega)]
          exact hg1 i hlt
        · have hie : i = s.jobs.length := by omega
          have hidx : s'.jobs[i]
              = { employer := caller, employee := 0, payment := value,
                  status := .Open, description := description,
                  deadline := deadline, workResult := "", createdAt := now,
                  updatedAt := now } := by
            simp only [hjobs]
            exact List.getElem_concat_length _ _ _ hie (by simp [hie])
          rw [hidx, hrel, hamt, if_pos hie]
          refine ⟨?_, rfl, by simp⟩
          rw [hg2 i (by omega)]
          simp
      · intro i hi
        rw [hrel]
        refine hg2 i ?_
        have : s'.jobs.length = s.jobs.length + 1 := by simp [hjobs]
        omega
    · exact ⟨hg1, hg2⟩
  | applyForJob caller jobId =>
    simp only [step]
    split
    · rename_i s' heq
      obtain ⟨hjobs, hrel, hamt, _⟩ := applyForJob_ok s s' caller jobId heq
      exact ⟨fun i hi => by
          rw [hrel, hamt]
          have hi' : i < s.jobs.length := by simpa [hjobs] using hi
          have hidx : s'.jobs[i] = s.jobs[i] := by
            simp [hjobs]
          rw [hidx]
          exact hg1 i hi',
        fun i hi => by
          rw [hrel]
          exact hg2 i (by simpa [hjobs] using hi)⟩
    · exact ⟨hg1, hg2⟩
  | assignJob caller jobId e now =>
    simp only [step]
    split
    · rename_i s' heq
      obtain ⟨j, hjq, hst, hjobs, hrel, hamt, _⟩ :=
        assignJob_ok s s' caller jobId e now heq
      obtain ⟨hlen, hget⟩ := List.getElem?_eq_some.1 hjq
      constructor
      · intro i hi
        have hi' : i < s.jobs.length := by
          simpa [hjobs] using hi
        rw [hrel, hamt]
        by_cases hij : i = jobId
        · subst hij
          have hidx : s'.jobs[i]
              = { j with employee := e, status := .InProgress,
                         updatedAt := now } := by
            simp only [hjobs]
            rw [List.getElem_set, if_pos rfl]
          rw [hidx]
          have := hg1 i hi'
          rw [hget] at this
          refine ⟨?_, by simpa using this.2.1, by simp⟩
          constructor
          · intro hr
            have := (this.1).1 hr
            rw [hst] at this
            exact absurd this (by simp)
          · intro hcon
            exact absurd hcon (by simp)
        · have hidx : s'.jobs[i] = s.jobs[i] := by
            simp only [hjobs]
            rw [List.getElem_set, if_neg (fun hh => hij hh.symm)]
          rw [hidx]
          exact hg1 i hi'
      · intro i hi
        rw [hrel]
        exact hg2 i (by simpa [hjobs] using hi)
    · exact ⟨hg1, hg2⟩
  | askToReviewJob caller jobId workResult now =>
    simp only [step]
    split
    · rename_i s' heq
      obtain ⟨j, hjq, hst, hjobs, hrel, hamt, _⟩ :=
        askToReviewJob_ok s s' caller jobId workResult now heq
      obtain ⟨hlen, hget⟩ := List.getElem?_eq_some.1 hjq
      constructor
      · intro i hi
        have hi' : i < s.jobs.length := by
          simpa [hjobs] using hi
        rw [hrel, hamt]
        by_cases hij : i = jobId
        · subst hij
          have hidx : s'.jobs[i]
              = { j with workResult := workResult, status := .WaitingReview,
                         updatedAt := now } := by
            simp only [hjobs]
            rw [List.getElem_set, if_pos rfl]
          rw [hidx]
          have := hg1 i hi'
          rw [hget] at this
          refine ⟨?_, by simpa using this.2.1, by simp⟩
          constructor
          · intro hr
            have := (this.1).1 hr
            rw [hst] at this
            exact absurd this (by simp)
          · intro hcon
            exact absurd hcon (by simp)
        · have hidx : s'.jobs[i] = s.jobs[i] := by
            simp only [hjobs]
            rw [List.getElem_set, if_neg (fun hh => hij hh.symm)]
          rw [hidx]
          exact hg1 i hi'
      · intro i hi
        rw [hrel]
        exact hg2 i (by simpa [hjobs] using hi)
    · exact ⟨hg1, hg2⟩
  | completeJob caller jobId now =>
    simp only [step]
    split
    · rename_i s' heq
      obtain ⟨j, hjq, hst, hcall, hrel0, hjobs, hrel, hamt, hbal⟩ :=
        completeJob_ok s s' caller jobId now heq
      obtain ⟨hlen, hget⟩ := List.getElem?_eq_some.1 hjq
      constructor
      · intro i hi
        have hi' : i < s.jobs.length := by
          simpa [hjobs] using hi
        rw [hamt, hrel i]
        by_cases hij : i = jobId
        · subst hij
          have hidx : s'.jobs[i]
              = { j with status := .Completed, updatedAt := now } := by
            simp only [hjobs]
            rw [List.getElem_set, if_pos rfl]
          rw [hidx, if_pos rfl]
          have := hg1 i hi'
          rw [hget] at this
          exact ⟨by simp, by simpa using this.2.1, by simp⟩
        · have hidx : s'.jobs[i] = s.jobs[i] := by
            simp only [hjobs]
            rw [List.getElem_set, if_neg (fun hh => hij hh.symm)]
          rw [hidx, if_neg hij]
          exact hg1 i hi'
      · intro i hi
        have hi' : s.jobs.length ≤ i := by simpa [hjobs] using hi
        rw [hrel i, if_neg (by omega)]
        exact hg2 i hi'
    · exact ⟨hg1, hg2⟩
  | createRating caller jobId score comment role rated now =>
    simp only [step]
    split
    · rename_i s' heq
      obtain ⟨hjobs, hrel, hamt, _⟩ :=
        createRating_ok s s' caller jobId score comment role rated now heq
      exact ⟨fun i hi => by
          rw [hrel, hamt]
          have hi' : i < s.jobs.length := by simpa [hjobs] using hi
          have hidx : s'.jobs[i] = s.jobs[i] := by simp [hjobs]
          rw [hidx]
          exact hg1 i hi',
        fun i hi => by
          rw [hrel]
          exact hg2 i (by simpa [hjobs] using hi)⟩
    · exact ⟨hg1, hg2⟩
  | createReview caller jobId score comment now =>
    simp only [step]
    split
    · rename_i s' heq
      obtain ⟨hjobs, hrel, hamt, _⟩ :=
        createReview_ok s s' caller jobId score comment now heq
      exact ⟨fun i hi => by
          rw [hrel, hamt]
          have hi' : i < s.jobs.length := by simpa [hjobs] using hi
          have hidx : s'.jobs[i] = s.jobs[i] := by simp [hjobs]
          rw [hidx]
          exact hg1 i hi',
        fun i hi => by
          rw [hrel]
          exact hg2 i (by simpa [hjobs] using hi)⟩
    · exact ⟨hg1, hg2⟩

lemma reachable_good (s : ContractState) (hs : Reachable s) : GoodState s := by
  induction hs with
  | init bal =>
    exact ⟨fun i hi => by simp [initState] at hi, fun i _ => rfl⟩
  | step s op _ ih => exact good_step s op ih

lemma reachable_sCompleted : Reachable sCompleted :=
  Reachable.step _ _ (Reachable.step _ _ (Reachable.step _ _ (Reachable.step _ _
    (Reachable.step _ _ (Reachable.step _ _ (Reachable.init initialBalances))))))

lemma reachable_sAssigned : Reachable sAssigned :=
  Reachable.step _ _ (Reachable.step _ _ (Reachable.step _ _
    (Reachable.init initialBalances)))

/-- C1: along any single external call, a stored job status either stays put or advances to its immediate successor on the path Open to InProgress to WaitingReview to Completed, so no operation ever regresses a status; and in every reachable state no job is Cancelled. -/
theorem status_path_monotone (s : ContractState) (op : Op) (i : Nat)
    (hi : i < s.jobs.length) (hi' : i < (step s op).jobs.length) :
    statusAdvances s.jobs[i].status ((step s op).jobs[i]).status
    ∧ (Reachable s → s.jobs[i].status ≠ .Cancelled) := by
  constructor
  · cases op with
    | createJob caller value deadline description now =>
      cases heq : createJob s caller value deadline description now with
      | error e =>
        have hstep : step s (Op.createJob caller value deadline description now) = s := by
          simp [step, heq]
        simp only [hstep]
        exact Or.inl rfl
      | ok p =>
        obtain ⟨s', jobId⟩ := p
        have hstep : step s (Op.createJob caller value deadline description now) = s' := by
          simp [step, heq]
        simp only [hstep]
        have hlt2 : i < s'.jobs.length := hstep ▸ hi'
        obtain ⟨hid, hv, hjobs, hrel, hamt⟩ :=
          createJob_ok s s' caller value deadline now jobId description heq
        have hidx : s'.jobs[i] = s.jobs[i] := by
          simp only [hjobs]
          exact List.getElem_append_left hi
        rw [hidx]
        exact Or.inl rfl
    | applyForJob caller jobId =>
      cases heq : applyForJob s caller jobId with
      | error e =>
        have hstep : step s (Op.applyForJob caller jobId) = s := by
          simp [step, heq]
        simp only [hstep]
        exact Or.inl rfl
      | ok s' =>
        have hstep : step s (Op.applyForJob caller jobId) = s' := by
          simp [step, heq]
        simp only [hstep]
        have hlt2 : i < s'.jobs.length := hstep ▸ hi'
        obtain ⟨hjobs, _, _, _⟩ := applyForJob_ok s s' caller jobId heq
        have hidx : s'.jobs[i] = s.jobs[i] := by simp only [hjobs]
        rw [hidx]
        exact Or.inl rfl
    | assignJob caller jobId e now =>
      cases heq : assignJob s caller jobId e now with
      | error err =>
        have hstep : step s (Op.assignJob caller jobId e now) = s := by
          simp [step, heq]
        simp only [hstep]
        exact Or.inl rfl
      | ok s' =>
        have hstep : step s (Op.assignJob caller jobId e now) = s' := by
          simp [step, heq]
        simp only [hstep]
        have hlt2 : i < s'.jobs.length := hstep ▸ hi'
        obtain ⟨j, hjq, hst, hjobs, _, _, _⟩ :=
          assignJob_ok s s' caller jobId e now heq
        obtain ⟨hlen, hget⟩ := List.getElem?_eq_some.1 hjq
        by_cases hij : i = jobId
        · subst hij
          have hidx : s'.jobs[i]
              = { j with employee := e, status := .InProgress,
                         updatedAt := now } := by
            simp only [hjobs]
            rw [List.getElem_set, if_pos rfl]
          rw [hidx, hget]
          exact Or.inr (by simp [hst, statusNext])
        · have hidx : s'.jobs[i] = s.jobs[i] := by
            simp only [hjobs]
            rw [List.getElem_set, if_neg (fun hh => hij hh.symm)]
          rw [hidx]
          exact Or.inl rfl
    | askToReviewJob caller jobId workResult now =>
      cases heq : askToReviewJob s caller jobId workResult now with
      | error err =>
        have hstep : step s (Op.askToReviewJob caller jobId workResult now) = s := by
          simp [step, heq]
        simp only [hstep]
        exact Or.inl rfl
      | ok s' =>
        have hstep : step s (Op.askToReviewJob caller jobId workResult now) = s' := by
          simp [step, heq]
        simp only [hstep]
        have hlt2 : i < s'.jobs.length := hstep ▸ hi'
        obtain ⟨j, hjq, hst, hjobs, _, _, _⟩ :=
          askToReviewJob_ok s s' caller jobId workResult now heq
        obtain ⟨hlen, hget⟩ := List.getElem?_eq_some.1 hjq
        by_cases hij : i = jobId
        · subst hij
          have hidx : s'.jobs[i]
              = { j with workResult := workResult, status := .WaitingReview,
                         updatedAt := now } := by
            simp only [hjobs]
            rw [List.getElem_set, if_pos rfl]
          rw [hidx, hget]
          exact Or.inr (by simp [hst, statusNext])
        · have hidx : s'.jobs[i] = s.jobs[i] := by
            simp only [hjobs]
            rw [List.getElem_set, if_neg (fun hh => hij hh.symm)]
          rw [hidx]
          exact Or.inl rfl
    | completeJob caller jobId now =>
      cases heq : completeJob s caller jobId now with
      | error err =>
        have hstep : step s (Op.completeJob caller jobId now) = s := by
          simp [step, heq]
        simp only [hstep]
        exact Or.inl rfl
      | ok s' =>
        have hstep : step s (Op.completeJob caller jobId now) = s' := by
          simp [step, heq]
        simp only [hstep]
        have hlt2 : i < s'.jobs.length := hstep ▸ hi'
        obtain ⟨j, hjq, hst, _, _, hjobs, _, _, _⟩ :=
          completeJob_ok s s' caller jobId now heq
        obtain ⟨hlen, hget⟩ := List.getElem?_eq_some.1 hjq
        by_cases hij : i = jobId
        · subst hij
          have hidx : s'.jobs[i]
              = { j with status := .Completed, updatedAt := now } := by
            simp only [hjobs]
            rw [List.getElem_set, if_pos rfl]
          rw [hidx, hget]
          exact Or.inr (by simp [hst, statusNext])
        · have hidx : s'.jobs[i] = s.jobs[i] := by
            simp only [hjobs]
            rw [List.getElem_set, if_neg (fun hh => hij hh.symm)]
          rw [hidx]
          exact Or.inl rfl
    | createRating caller jobId score comment role rated now =>
      cases heq : createRating s caller jobId score comment role rated now with
      | error err =>
        have hstep : step s (Op.createRating caller jobId score comment role rated now) = s := by
          simp [step, heq]
        simp only [hstep]
        exact Or.inl rfl
      | ok s' =>
        have hstep : step s (Op.createRating caller jobId score comment role rated now) = s' := by
          simp [step, heq]
        simp only [hstep]
        have hlt2 : i < s'.jobs.length := hstep ▸ hi'
        obtain ⟨hjobs, _, _, _⟩ :=
          createRating_ok s s' caller jobId score comment role rated now heq
        have hidx : s'.jobs[i] = s.jobs[i] := by simp only [hjobs]
        rw [hidx]
        exact Or.inl rfl
    | createReview caller jobId score comment now =>
      cases heq : createReview s caller jobId score comment now with
      | error err =>
        have hstep : step s (Op.createReview caller jobId score comment now) = s := by
          simp [step, heq]
        simp only [hstep]
        exact Or.inl rfl
      | ok s' =>
        have hstep : step s (Op.createReview caller jobId score comment now) = s' := by
          simp [step, heq]
        simp only [hstep]
        have hlt2 : i < s'.jobs.length := hstep ▸ hi'
        obtain ⟨hjobs, _, _, _⟩ :=
          createReview_ok s s' caller jobId score comment now heq
        have hidx : s'.jobs[i] = s.jobs[i] := by simp only [hjobs]
        rw [hidx]
        exact Or.inl rfl
  · intro hs
    exact ((reachable_good s hs).1 i hi).2.2

/-- Witness for C1 at the concrete askToReviewJob step of the fixture pipeline. -/
theorem status_path_monotone_witness :
    0 < sAssigned.jobs.length
    ∧ statusAdvances JobStatus.InProgress JobStatus.WaitingReview
    ∧ JobStatus.InProgress ≠ JobStatus.Cancelled := by
  refine ⟨by decide, ?_, ?_⟩
  · exact (status_path_monotone sAssigned (.askToReviewJob 2 0 "test_url" 2) 0
      (by decide) (by decide)).1
  · exact (status_path_monotone sAssigned (.askToReviewJob 2 0 "test_url" 2) 0
      (by decide) (by decide)).2 reachable_sAssigned

/-- C2: completeJob called by the job employee fails with Unauthorized and leaves the state untouched; called by the employer on a WaitingReview job it succeeds, marks the job Completed and credits the employee balance with exactly the job payment. -/
theorem completeJob_spec (s : ContractState) (jobId now : Nat) (j : Job)
    (hj : s.jobs[jobId]? = some j) :
    (j.employee ≠ j.employer →
        completeJob s j.employee jobId now = .error .Unauthorized
        ∧ step s (.completeJob j.employee jobId now) = s)
    ∧ (j.status = .WaitingReview → s.escrowReleased jobId = false →
        s.escrowAmount jobId = j.payment →
        ∃ s', completeJob s j.employer jobId now = .ok s'
          ∧ (∃ h : jobId < s'.jobs.length,
              (s'.jobs.get ⟨jobId, h⟩).status = .Completed)
          ∧ s'.balances j.employee = s.balances j.employee + (j.payment : Int)) := by
  obtain ⟨hlen, hget⟩ := List.getElem?_eq_some.1 hj
  constructor
  · intro hne
    have h1 : completeJob s j.employee jobId now = .error .Unauthorized := by
      unfold completeJob
      rw [hj]
      simp only [if_pos hne]
    exact ⟨h1, by simp [step, h1]⟩
  · intro hstatus hrel hamt
    unfold completeJob
    rw [hj]
    dsimp only
    rw [if_neg (by simp), if_neg (by simp [hstatus])]
    unfold escrowRelease
    simp only [hrel]
    rw [if_neg (by simp)]
    refine ⟨_, rfl, ⟨by simp [hlen], ?_⟩, by simp [hamt]⟩
    simp [List.getElem_set, hlen]

/-- Witness for C2 on the concrete waiting-review state of the fixture pipeline. -/
theorem completeJob_spec_witness :
    sWaiting.jobs[0]? = some jobWaiting
    ∧ completeJob sWaiting 2 0 9 = .error .Unauthorized
    ∧ (∃ s', completeJob sWaiting 1 0 9 = .ok s'
        ∧ (∃ h : 0 < s'.jobs.length, (s'.jobs.get ⟨0, h⟩).status = .Completed)
        ∧ s'.balances 2 = sWaiting.balances 2 + ((100 : Nat) : Int)) := by
  have h := completeJob_spec sWaiting 0 9 jobWaiting rfl
  exact ⟨rfl, (h.1 (by decide)).1, h.2 rfl rfl rfl⟩

/-- C3: createJob with positive attached payment creates an Open job with the caller as employer, the given payment, description and deadline, an empty workResult, debits the caller by exactly the payment, escrows it against the new sequential job id, and returns that id. -/
theorem createJob_creates_open_escrowed (s : ContractState) (caller : Address)
    (value deadline now : Nat) (description : String) (hv : 0 < value) :
    ∃ s', createJob s caller value deadline description now = .ok (s', s.jobs.length)
      ∧ s'.jobs = s.jobs ++
          [{ employer := caller, employee := 0, payment := value,
             status := .Open, description := description, deadline := deadline,
             workResult := "", createdAt := now, updatedAt := now }]
      ∧ s'.balances caller = s.balances caller - (value : Int)
      ∧ (∀ a, a ≠ caller → s'.balances a = s.balances a)
      ∧ s'.escrowAmount s.jobs.length = value
      ∧ s'.ratings = s.ratings ∧ s'.reviews = s.reviews := by
  unfold createJob
  rw [if_neg (Nat.pos_iff_ne_zero.1 hv)]
  refine ⟨_, rfl, rfl, by simp, ?_, by simp, rfl, rfl⟩
  intro a ha; simp [ha]

/-- Witness for C3 on the freshly deployed contract. -/
theorem createJob_creates_open_escrowed_witness :
    0 < 100
    ∧ (∃ s', createJob sDeployed 1 100 5 "Test job" 0 = .ok (s', sDeployed.jobs.length)
        ∧ s'.jobs = sDeployed.jobs ++ [jobOpen]
        ∧ s'.balances 1 = sDeployed.balances 1 - ((100 : Nat) : Int)
        ∧ (∀ a, a ≠ 1 → s'.balances a = sDeployed.balances a)
        ∧ s'.escrowAmount sDeployed.jobs.length = 100
        ∧ s'.ratings = sDeployed.ratings ∧ s'.reviews = sDeployed.reviews) :=
  ⟨by decide, createJob_creates_open_escrowed sDeployed 1 100 5 0 "Test job" (by decide)⟩

/-- C4: in every reachable state a job escrow has been released exactly when the job is Completed (so never before), and a repeated completeJob on an already-Completed job is rejected with no state change and no funds moved. -/
theorem escrow_single_release (s : ContractState) (hs : Reachable s)
    (jobId now : Nat) (j : Job) (hj : s.jobs[jobId]? = some j) :
    (s.escrowReleased jobId = true ↔ j.status = .Completed)
    ∧ (j.status ≠ .Completed → s.escrowReleased jobId = false)
    ∧ (j.status = .Completed → ∀ caller,
        (∃ e, completeJob s caller jobId now = .error e)
        ∧ step s (.completeJob caller jobId now) = s) := by
  obtain ⟨hlen, hget⟩ := List.getElem?_eq_some.1 hj
  have hinv := ((reachable_good s hs).1 jobId hlen).1
  rw [hget] at hinv
  refine ⟨hinv, ?_, ?_⟩
  · intro hne
    cases hflag : s.escrowReleased jobId with
    | false => rfl
    | true => exact absurd (hinv.1 hflag) hne
  · intro hC caller
    have herr : ∃ e, completeJob s caller jobId now = .error e := by
      unfold completeJob
      rw [hj]
      dsimp only
      by_cases hc : caller ≠ j.employer
      · rw [if_pos hc]
        exact ⟨_, rfl⟩
      · rw [if_neg hc, if_pos (by simp [hC])]
        exact ⟨_, rfl⟩
    obtain ⟨e, he⟩ := herr
    exact ⟨⟨e, he⟩, by simp [step, he]⟩

/-- Witness for C4 on the concrete completed state of the fixture pipeline. -/
theorem escrow_single_release_witness :
    sCompleted.jobs[0]? = some jobCompleted
    ∧ ((sCompleted.escrowReleased 0 = true ↔ jobCompleted.status = .Completed)
      ∧ (jobCompleted.status ≠ .Completed → sCompleted.escrowReleased 0 = false)
      ∧ (jobCompleted.status = .Completed → ∀ caller,
          (∃ e, completeJob sCompleted caller 0 9 = .error e)
          ∧ step sCompleted (.completeJob caller 0 9) = sCompleted)) :=
  ⟨rfl, escrow_single_release sCompleted reachable_sCompleted 0 9 jobCompleted rfl⟩

/-- C5: with a score in range, createRating succeeds exactly when the job is Completed and the caller, rated person and role form one of the two valid pairings; any rejection leaves the state, hence the rating list, unchanged, and success appends exactly the new rating. -/
theorem createRating_guard_spec (s : ContractState) (caller : Address)
    (jobId score : Nat) (comment : String) (role : Role) (rated : Address)
    (now : Nat) (j : Job) (hj : s.jobs[jobId]? = some j)
    (hs1 : 1 ≤ score) (hs5 : score ≤ 5) :
    ((∃ s', createRating s caller jobId score comment role rated now = .ok s')
        ↔ (j.status = .Completed ∧
            ((caller = j.employer ∧ rated = j.employee ∧ role = .Employee)
              ∨ (caller = j.employee ∧ rated = j.employer ∧ role = .Employer))))
    ∧ (∀ e, createRating s caller jobId score comment role rated now = .error e →
        step s (.createRating caller jobId score comment role rated now) = s)
    ∧ (∀ s', createRating s caller jobId score comment role rated now = .ok s' →
        s'.ratings rated = s.ratings rated
          ++ [{ jobId := jobId, score := score, comment := comment,
                role := role, createdAt := now }]) := by
  have hrange : ¬(score < 1 ∨ 5 < score) := by omega
  refine ⟨?_, ?_, ?_⟩
  · unfold createRating
    rw [if_neg hrange, hj]
    dsimp only
    constructor
    · intro ⟨s', hs'⟩
      by_cases hst : j.status = .Completed
      · rw [if_neg (by simp [hst])] at hs'
        refine ⟨hst, ?_⟩
        by_cases hpair :
            (caller = j.employer ∧ rated = j.employee ∧ role = .Employee)
              ∨ (caller = j.employee ∧ rated = j.employer ∧ role = .Employer)
        · exact hpair
        · rw [if_neg hpair] at hs'
          exact absurd hs' (by simp)
      · rw [if_pos (by simp [hst])] at hs'
        exact absurd hs' (by simp)
    · intro ⟨hst, hpair⟩
      rw [if_neg (by simp [hst]), if_pos hpair]
      exact ⟨_, rfl⟩
  · intro e he
    simp [step, he]
  · intro s' hs'
    unfold createRating at hs'
    rw [if_neg hrange, hj] at hs'
    dsimp only at hs'
    by_cases hst : j.status = .Completed
    · rw [if_neg (by simp [hst])] at hs'
      by_cases hpair :
          (caller = j.employer ∧ rated = j.employee ∧ role = .Employee)
            ∨ (caller = j.employee ∧ rated = j.employer ∧ role = .Employer)
      · rw [if_pos hpair] at hs'
        cases hs'
        simp
      · rw [if_neg hpair] at hs'
        exact absurd hs' (by simp)
    · rw [if_pos (by simp [hst])] at hs'
      exact absurd hs' (by simp)

/-- Witness for C5: the employer rates the employee on the concrete completed job. -/
theorem createRating_guard_spec_witness :
    sCompleted.jobs[0]? = some jobCompleted
    ∧ (1 : Nat) ≤ 5 ∧ (5 : Nat) ≤ 5
    ∧ (∃ s', createRating sCompleted 1 0 5 "test_comment" .Employee 2 9 = .ok s') := by
  have h := createRating_guard_spec sCompleted 1 0 5 "test_comment" .Employee 2 9
    jobCompleted rfl (by decide) (by decide)
  exact ⟨rfl, by decide, by decide, h.1.2 ⟨rfl, Or.inl ⟨rfl, rfl, rfl⟩⟩⟩

/-- C6: createReview succeeds exactly when the caller is the employer and the job is WaitingReview, a rejection changing nothing; getReviews succeeds exactly for the employee and is Unauthorized for the employer. -/
theorem review_access_spec (s : ContractState) (caller : Address)
    (jobId score now : Nat) (comment : String) (j : Job)
    (hj : s.jobs[jobId]? = some j) :
    ((∃ s', createReview s caller jobId score comment now = .ok s')
        ↔ (caller = j.employer ∧ j.status = .WaitingReview))
    ∧ (∀ e, createReview s caller jobId score comment now = .error e →
        step s (.createReview caller jobId score comment now) = s)
    ∧ ((∃ rs, getReviews s caller jobId = .ok rs) ↔ caller = j.employee)
    ∧ (caller = j.employer → j.employer ≠ j.employee →
        getReviews s caller jobId = .error .Unauthorized) := by
  refine ⟨?_, ?_, ?_, ?_⟩
  · unfold createReview
    rw [hj]
    dsimp only
    constructor
    · intro ⟨s', hs'⟩
      by_cases hc : caller = j.employer
      · rw [if_neg (by simp [hc])] at hs'
        by_cases hst : j.status = .WaitingReview
        · exact ⟨hc, hst⟩
        · rw [if_pos (by simp [hst])] at hs'
          exact absurd hs' (by simp)
      · rw [if_pos (by simp [hc])] at hs'
        exact absurd hs' (by simp)
    · intro ⟨hc, hst⟩
      rw [if_neg (by simp [hc]), if_neg (by simp [hst])]
      exact ⟨_, rfl⟩
  · intro e he
    simp [step, he]
  · unfold getReviews
    rw [hj]
    dsimp only
    constructor
    · intro ⟨rs, hrs⟩
      by_cases hc : caller = j.employee
      · exact hc
      · rw [if_pos (by simp [hc])] at hrs
        exact absurd hrs (by simp)
    · intro hc
      rw [if_neg (by simp [hc])]
      exact ⟨_, rfl⟩
  · intro hc hne
    unfold getReviews
    rw [hj]
    dsimp only
    rw [if_pos (by simp [hc]; exact hne)]

/-- Witness for C6 on the concrete waiting-review state: the employer can write but cannot read. -/
theorem review_access_spec_witness :
    sWaiting.jobs[0]? = some jobWaiting
    ∧ ((∃ s', createReview sWaiting 1 0 5 "test_comment" 9 = .ok s')
      ↔ ((1 : Address) = jobWaiting.employer ∧ jobWaiting.status = .WaitingReview))
    ∧ ((∃ rs, getReviews sWaiting 1 0 = .ok rs) ↔ (1 : Address) = jobWaiting.employee)
    ∧ getReviews sWaiting 1 0 = .error .Unauthorized := by
  have h := review_access_spec sWaiting 1 0 5 9 "test_comment" jobWaiting rfl
  exact ⟨rfl, h.1, h.2.2.1, h.2.2.2 rfl (by decide)⟩

/-- C7: getRatings with Positive returns exactly the stored ratings of the address with score at least 3, with Negative exactly those with score below 3, with Both the whole list in insertion order, and getRatingsCount is the length of the returned list. -/
theorem getRatings_filter_spec (s : ContractState) (addr : Address) :
    (∀ r : Rating, r ∈ getRatings s addr .Positive ↔ r ∈ s.ratings addr ∧ 3 ≤ r.score)
    ∧ (∀ r : Rating, r ∈ getRatings s addr .Negative ↔ r ∈ s.ratings addr ∧ r.score < 3)
    ∧ getRatings s addr .Both = s.ratings addr
    ∧ (∀ filter, getRatingsCount s addr filter = (getRatings s addr filter).length) := by
  refine ⟨?_, ?_, ?_, fun _ => rfl⟩
  · intro r
    simp [getRatings, matchesFilter, isPositive, List.mem_filter]
  · intro r
    simp [getRatings, matchesFilter, isPositive, List.mem_filter]
  · simp [getRatings, matchesFilter]

/-- C8: getKarma equals the count of ratings with score at least 3 minus the count of ratings with score below 3, as a signed integer; with a single rating of score 1 it is -1. -/
theorem getKarma_tally (s : ContractState) (addr : Address) :
    getKarma s addr
      = ((s.ratings addr).countP (fun r => decide (3 ≤ r.score)) : Int)
        - ((s.ratings addr).countP (fun r => decide (r.score < 3)) : Int)
    ∧ (∀ r : Rating, s.ratings addr = [r] → r.score = 1 → getKarma s addr = -1) := by
  constructor
  · simpa using karma_foldl (s.ratings addr) 0
  · intro r hr hscore
    simp [getKarma, hr, isPositive, hscore]

/-- C9: applyForJob by the job employer always fails with Unauthorized and leaves the applications untouched; any other caller on an Open job succeeds, ends up in the list getJobApplications returns, and when new is appended at the end. -/
theorem applyForJob_spec (s : ContractState) (jobId : Nat) (j : Job)
    (hj : s.jobs[jobId]? = some j) :
    (applyForJob s j.employer jobId = .error .Unauthorized
      ∧ step s (.applyForJob j.employer jobId) = s)
    ∧ (∀ caller, caller ≠ j.employer → j.status = .Open →
        ∃ s', applyForJob s caller jobId = .ok s'
          ∧ getJobApplications s' jobId = .ok (s'.applications jobId)
          ∧ caller ∈ s'.applications jobId
          ∧ (caller ∉ s.applications jobId →
              s'.applications jobId = s.applications jobId ++ [caller])) := by
  constructor
  · have h1 : applyForJob s j.employer jobId = .error .Unauthorized := by
      unfold applyForJob
      rw [hj]
      dsimp only
      rw [if_pos rfl]
    exact ⟨h1, by simp [step, h1]⟩
  · intro caller hc hst
    unfold applyForJob
    rw [hj]
    dsimp only
    rw [if_neg hc, if_neg (by simp [hst])]
    by_cases hmem : caller ∈ s.applications jobId
    · rw [if_pos hmem]
      exact ⟨s, rfl, by unfold getJobApplications; rw [hj], hmem,
        fun h => absurd hmem h⟩
    · rw [if_neg hmem]
      refine ⟨_, rfl, ?_, ?_, ?_⟩
      · unfold getJobApplications
        dsimp only
        rw [hj]
      · simp
      · intro _
        simp

/-- Witness for C9 on the concrete freshly created job. -/
theorem applyForJob_spec_witness :
    sCreated.jobs[0]? = some jobOpen
    ∧ (applyForJob sCreated 1 0 = .error .Unauthorized
        ∧ step sCreated (.applyForJob 1 0) = sCreated)
    ∧ (∃ s', applyForJob sCreated 2 0 = .ok s'
        ∧ getJobApplications s' 0 = .ok (s'.applications 0)
        ∧ 2 ∈ s'.applications 0
        ∧ (2 ∉ sCreated.applications 0 →
            s'.applications 0 = sCreated.applications 0 ++ [2])) := by
  have h := applyForJob_spec sCreated 0 jobOpen rfl
  exact ⟨rfl, h.1, h.2 2 (by decide) rfl⟩

/-- C10: getReviews by the job employee succeeds regardless of the job status; completing the job preserves the review list, so reviews written during WaitingReview are still returned by the employee after completion. -/
theorem getReviews_status_independent (s : ContractState) (jobId : Nat)
    (j : Job) (hj : s.jobs[jobId]? = some j) :
    getReviews s j.employee jobId = .ok (s.reviews jobId)
    ∧ (∀ now s', completeJob s j.employer jobId now = .ok s' →
        s'.reviews = s.reviews
          ∧ getReviews s' j.employee jobId = .ok (s.reviews jobId)) := by
  obtain ⟨hlen, hget⟩ := List.getElem?_eq_some.1 hj
  constructor
  · unfold getReviews
    rw [hj]
    dsimp only
    rw [if_neg (by simp)]
  · intro now s' hs'
    unfold completeJob at hs'
    rw [hj] at hs'
    dsimp only at hs'
    by_cases hc : (j.employer ≠ j.employer)
    · exact absurd rfl hc
    rw [if_neg hc] at hs'
    by_cases hst : j.status = .WaitingReview
    · rw [if_neg (by simp [hst])] at hs'
      unfold escrowRelease at hs'
      by_cases hrel : s.escrowReleased jobId = true
      · rw [if_pos hrel] at hs'
        exact absurd hs' (by simp)
      · rw [if_neg hrel] at hs'
        cases hs'
        refine ⟨rfl, ?_⟩
        unfold getReviews
        dsimp only
        rw [List.getElem?_eq_getElem (by simpa using hlen)]
        dsimp only
        rw [List.getElem_set, if_pos rfl]
        dsimp only
        rw [if_neg (by simp)]
    · rw [if_pos (by simp [hst])] at hs'
      exact absurd hs' (by simp)

/-- Witness for C10: the employee reads the review both before and after completion. -/
theorem getReviews_status_independent_witness :
    sReviewed.jobs[0]? = some jobWaiting
    ∧ getReviews sReviewed 2 0 = .ok (sReviewed.reviews 0)
    ∧ getReviews sCompleted 2 0 = .ok (sReviewed.reviews 0) := by
  have h := getReviews_status_independent sReviewed 0 jobWaiting rfl
  exact ⟨rfl, h.1, (h.2 4 sCompleted rfl).2⟩

end DeHire
